import Mathlib

/-!
Verification development for the course-management backend's submission
lifecycle and grading-dispatch subsystem.  The Go data-model files
(`submission.models.go`, `assignment.models.go`) are shallowly embedded:
a MongoDB collection is a `List` of documents in natural order, and the
driver's single-document operations (`UpdateOne`, `DeleteOne`, `FindOne`,
`InsertOne`) act on the first document matching the filter.
-/

namespace MongoList

/-- Model of the driver's `UpdateOne`: apply `f` to the first element
satisfying `p`, leave everything else unchanged. -/
def updateFirst (p : α → Bool) (f : α → α) : List α → List α
  | [] => []
  | x :: xs => if p x then f x :: xs else x :: updateFirst p f xs

/-- Model of the driver's `DeleteOne`: remove the first element
satisfying `p`. -/
def deleteFirst (p : α → Bool) : List α → List α
  | [] => []
  | x :: xs => if p x then xs else x :: deleteFirst p xs

end MongoList

/-- Error taxonomy of the `backend/errors` package, as used by the two
data-model files (only the identity of each error value matters here). -/
inductive APIError where
  | ErrorInvalidJSON
  | ErrorUnableToReachMicroService
  | ErrorUnableToCreateJob
  | ErrorDatabaseFailedCreate
  | ErrorDatabaseFailedUpdate
  | ErrorDatabaseFailedDelete
  | ErrorInvalidBSON
  | ErrorResourceNotFound
  deriving DecidableEq

namespace SubmissionModels

/-- `WorkerResult` from `submission.models.go`: the result of one test case. -/
structure WorkerResult where
  id : Int
  panicked : Bool
  passed : Bool
  studentFacing : Bool
  output : String
  html : String
  testCMD : String
  name : String
  deriving DecidableEq

/-- `MongoSubmission` from `submission.models.go`.  Object identifiers are
modelled as `Nat`; the Go slice `Results []WorkerResult` is `Option (List
WorkerResult)` with `none` standing for the nil slice (BSON null). -/
structure MongoSubmission where
  id : Nat
  userID : Nat
  fileID : Nat
  assignmentID : Nat
  attemptNumber : Int
  submissionDate : Int
  file : String
  errorTesting : Bool
  results : Option (List WorkerResult)
  inProgress : Bool
  deriving DecidableEq

/-- Document transformation of `UpdateGrade`'s `$set`. -/
def setGrade (results : Option (List WorkerResult)) (d : MongoSubmission) :
    MongoSubmission :=
  { d with results := results, inProgress := false }

/-- `UpdateGrade` from `submission.models.go`: `UpdateOne` on `_id = sid`
setting `results` and `inProgress = false`.  The driver reports no error
when the filter matches nothing (matched count 0); the Go error is non-nil
only on a transport failure, which is outside this model, so the returned
error is always nil (`none`). -/
def UpdateGrade (store : List MongoSubmission) (sid : Nat)
    (results : Option (List WorkerResult)) :
    List MongoSubmission × Option APIError :=
  (MongoList.updateFirst (fun d => d.id == sid) (setGrade results) store, none)

/-- Document transformation of `UpdateError`'s `$set`. -/
def setError (d : MongoSubmission) : MongoSubmission :=
  { d with errorTesting := true, inProgress := false }

/-- `UpdateError` from `submission.models.go`: `UpdateOne` on `_id = sid`
setting `errorTesting = true` and `inProgress = false`. -/
def UpdateError (store : List MongoSubmission) (sid : Nat) :
    List MongoSubmission × Option APIError :=
  (MongoList.updateFirst (fun d => d.id == sid) setError store, none)

/-- `Get` from `submission.models.go`: `FindOne` on `_id = sid`; decoding
an absent document fails, surfaced as `ErrorInvalidBSON`.  For the student
role the results are rebuilt from a fresh non-nil slice holding only the
student-facing entries (ranging over a nil slice iterates zero times, so
the student always receives a non-null list). -/
def Get (store : List MongoSubmission) (sid : Nat) (role : String) :
    Except APIError MongoSubmission :=
  match store.find? (fun d => d.id == sid) with
  | none => .error .ErrorInvalidBSON
  | some sub =>
    if role == "student" then
      .ok { sub with
        results := some ((sub.results.getD []).filter (fun r => r.studentFacing)) }
    else
      .ok sub

/-- `Delete` from `submission.models.go`: `DeleteOne` on `_id = sid`.
Deleting an absent id matches nothing and is not an error. -/
def Delete (store : List MongoSubmission) (sid : Nat) :
    List MongoSubmission × Option APIError :=
  (MongoList.deleteFirst (fun d => d.id == sid) store, none)

/-- What `data["job"]` would yield after `json.Unmarshal` of the grading
service's response body: either a string-valued `job` field, or anything
else (malformed JSON, missing field, non-string value). -/
inductive GraderBody where
  | jobField (job : String)
  | noJobField
  deriving DecidableEq

/-- Environment of one `Submit` call: the current time, whether
`json.Marshal` of the request payload fails, and the HTTP response
(`none` models a transport failure with no response). -/
structure DispatchEnv where
  now : Int
  marshalFails : Bool
  response : Option (Nat × GraderBody)
  deriving DecidableEq

/-- Outcome of `Submit`.  `panicked` models the Go runtime panic raised by
the unchecked type assertion `data["job"].(string)` on the success path. -/
inductive SubmitOutcome where
  | ok (job : String)
  | err (e : APIError)
  | panicked
  deriving DecidableEq

/-- The submission record built at the top of `Submit`: fresh record with
`ErrorTesting: false`, `Results: nil`, `InProgress: true`. -/
def mkSubmission (aid fid uid sid : Nat) (attempt : Int) (filename : String)
    (now : Int) : MongoSubmission :=
  { id := sid
    userID := uid
    fileID := fid
    assignmentID := aid
    attemptNumber := attempt
    submissionDate := now
    file := filename
    errorTesting := false
    results := none
    inProgress := true }

/-- `Submit` from `submission.models.go`.  The record is inserted
optimistically (`InsertOne` fails on a duplicate `_id`, modelled by the
`any` guard); on payload-serialization failure, transport failure, or a
non-2xx status the record is deleted again (compensating delete) and the
corresponding error returned; on a 2xx response the record is kept and
`data["job"].(string)` either yields the job handle or panics. -/
def Submit (store : List MongoSubmission) (aid fid uid sid : Nat)
    (attempt : Int) (filename : String) (env : DispatchEnv) :
    List MongoSubmission × SubmitOutcome :=
  let sub := mkSubmission aid fid uid sid attempt filename env.now
  if store.any (fun d => d.id == sid) then
    (store, .err .ErrorDatabaseFailedCreate)
  else
    let store1 := store ++ [sub]
    if env.marshalFails then
      ((Delete store1 sid).1, .err .ErrorInvalidJSON)
    else
      match env.response with
      | none => ((Delete store1 sid).1, .err .ErrorUnableToReachMicroService)
      | some (status, body) =>
        if status < 200 || 300 ≤ status then
          ((Delete store1 sid).1, .err .ErrorUnableToCreateJob)
        else
          match body with
          | .jobField job => (store1, .ok job)
          | .noJobField => (store1, .panicked)

/-- One operation of the submission-lifecycle protocol, for reachability
statements about the store. -/
inductive Op where
  | submitOp (aid fid uid sid : Nat) (attempt : Int) (filename : String)
      (env : DispatchEnv)
  | gradeOp (sid : Nat) (results : Option (List WorkerResult))
  | errorOp (sid : Nat)
  deriving DecidableEq

/-- Effect of one operation on the submissions collection. -/
def applyOp (store : List MongoSubmission) : Op → List MongoSubmission
  | .submitOp aid fid uid sid attempt filename env =>
      (Submit store aid fid uid sid attempt filename env).1
  | .gradeOp sid results => (UpdateGrade store sid results).1
  | .errorOp sid => (UpdateError store sid).1

/-- The store reached from the empty collection by a sequence of
operations. -/
def runOps (ops : List Op) : List MongoSubmission :=
  ops.foldl applyOp []

/-- The submission id targeted by a grading callback (`none` for
`submitOp`, which is not a callback). -/
def target? : Op → Option Nat
  | .gradeOp sid _ => some sid
  | .errorOp sid => some sid
  | .submitOp _ _ _ _ _ _ _ => none

/-- Whether `op` is a grading callback addressed to submission `sid`. -/
def isCallbackFor (sid : Nat) (op : Op) : Bool :=
  target? op == some sid

/-- Two operations clash when both are callbacks addressed to the same
submission id. -/
def clash (o1 o2 : Op) : Bool :=
  match target? o1, target? o2 with
  | some s1, some s2 => s1 == s2
  | _, _ => false

/-- Protocol restriction: no submission id receives more than one grading
callback in the sequence. -/
def singleCallbackPer (ops : List Op) : Prop :=
  List.Pairwise (fun o1 o2 => clash o1 o2 = false) ops

/-- Protocol restriction: every `gradeOp` carries a non-null results
slice. -/
def gradeNonNull : Op → Bool
  | .gradeOp _ none => false
  | _ => true

/-- Terminal state *in progress*: `inProgress = true`, `results = null`. -/
def inProgressState (d : MongoSubmission) : Bool :=
  d.inProgress && d.results.isNone

/-- Terminal state *graded*: `inProgress = false`, `results` populated. -/
def gradedState (d : MongoSubmission) : Bool :=
  !d.inProgress && d.results.isSome

/-- Terminal state *error*: `inProgress = false`, `errorTesting = true`. -/
def errorState (d : MongoSubmission) : Bool :=
  !d.inProgress && d.errorTesting

/-- How many of the three terminal-state descriptions hold of a record. -/
def stateCount (d : MongoSubmission) : Nat :=
  (if inProgressState d then 1 else 0) +
    (if gradedState d then 1 else 0) +
    (if errorState d then 1 else 0)

/-- Exactly one of the three terminal states holds. -/
def exactlyOneState (d : MongoSubmission) : Prop :=
  stateCount d = 1

/-- A record awaiting its grading callback: in progress, null results, no
error flag (the shape `Submit` creates). -/
def freshlyInProgress (d : MongoSubmission) : Prop :=
  d.inProgress = true ∧ d.results = none ∧ d.errorTesting = false

end SubmissionModels

namespace AssignmentModels

/-- `AssignmentSubmission` from `assignment.models.go`: one back-reference
entry in the assignment's embedded submission roster. -/
structure AssignmentSubmission where
  userID : Nat
  submissionID : Nat
  attemptNumber : Int
  deriving DecidableEq

/-- `Test` from `assignment.models.go`. -/
structure Test where
  name : String
  expectedOutput : String
  studentFacing : Bool
  testCMD : String
  deriving DecidableEq

/-- `MongoAssignment` from `assignment.models.go`. -/
structure MongoAssignment where
  id : Nat
  language : String
  version : String
  name : String
  numAttempts : Int
  description : String
  dueDate : Int
  published : Bool
  supportingFiles : Nat
  testBuildCMD : String
  tests : List Test
  submissions : List AssignmentSubmission
  deriving DecidableEq

/-- Document transformation of `Update`'s `$set`: replace exactly the
whitelisted fields with those of `assign`. -/
def applyUpdate (assign a : MongoAssignment) : MongoAssignment :=
  { a with
    language := assign.language
    version := assign.version
    name := assign.name
    description := assign.description
    dueDate := assign.dueDate
    published := assign.published
    testBuildCMD := assign.testBuildCMD
    tests := assign.tests
    numAttempts := assign.numAttempts }

/-- `Update` from `assignment.models.go`: `UpdateOne` on `_id = assign.ID`
with a `$set` of the whitelisted fields only. -/
def Update (store : List MongoAssignment) (assign : MongoAssignment) :
    List MongoAssignment :=
  MongoList.updateFirst (fun a => a.id == assign.id) (applyUpdate assign) store

/-- The projection produced by `GetFull` for the student role (the decoded
aggregation document, here as a structure instead of a dynamic map). -/
structure StudentFullView where
  id : Nat
  language : String
  version : String
  name : String
  numAttempts : Int
  description : String
  supportingFiles : Nat
  dueDate : Int
  published : Bool
  testBuildCMD : String
  tests : List Test
  submissions : List SubmissionModels.MongoSubmission
  deriving DecidableEq

/-- The `role = "student"` branch of `GetFull` from `assignment.models.go`:
`$match` on `_id`; `$lookup` of the submission documents referenced by the
roster (local field `submissions.submissionID`, foreign field `_id`);
`$project` keeping the whitelisted fields, filtering `submissions` to the
requester's own (`userID = uid`) and `tests` to student-facing ones; final
`$match` on `published = true`, so an unpublished assignment yields no
document (`none`). -/
def GetFullStudent (assignments : List MongoAssignment)
    (subs : List SubmissionModels.MongoSubmission) (aid uid : Nat) :
    Option StudentFullView :=
  match assignments.find? (fun a => a.id == aid) with
  | none => none
  | some a =>
    let joined := subs.filter
      (fun s => a.submissions.any (fun r => r.submissionID == s.id))
    let view : StudentFullView :=
      { id := a.id
        language := a.language
        version := a.version
        name := a.name
        numAttempts := a.numAttempts
        description := a.description
        supportingFiles := a.supportingFiles
        dueDate := a.dueDate
        published := a.published
        testBuildCMD := a.testBuildCMD
        tests := a.tests.filter (fun t => t.studentFacing)
        submissions := joined.filter (fun s => s.userID == uid) }
    if a.published then some view else none

/-- The loop body of `LatestUserSubmission`: keep the larger of the
accumulator and this entry's attempt number when the entry belongs to the
user. -/
def latestStep (uid : Nat) (att : Int) (s : AssignmentSubmission) : Int :=
  if s.userID == uid && s.attemptNumber > att then s.attemptNumber else att

/-- The scan inside `LatestUserSubmission`, starting from 0. -/
def latestAttemptFold (subs : List AssignmentSubmission) (uid : Nat) : Int :=
  subs.foldl (latestStep uid) 0

/-- `LatestUserSubmission` from `assignment.models.go`: `Get` the
assignment (`none` models the error path when it is absent), then scan its
embedded roster for the user's largest attempt number, starting from 0. -/
def LatestUserSubmission (assignments : List MongoAssignment)
    (aid uid : Nat) : Option (MongoAssignment × Int) :=
  (assignments.find? (fun a => a.id == aid)).map
    (fun a => (a, latestAttemptFold a.submissions uid))

end AssignmentModels

namespace SubmissionModels

/-- A course document, as used by the `$lookup` stage of
`GetUsersRecentSubmissions` (the course model file is not part of the
embedded sources; only the `_id`, the `assignments` list, and the four
projected-out roster fields matter to the pipeline). -/
structure MongoCourse where
  id : Nat
  professors : List Nat
  assistants : List Nat
  students : List Nat
  assignments : List Nat
  deriving DecidableEq

/-- The course after the pipeline's `$project` removed `professors`,
`assistants`, `students` and `assignments`. -/
structure StrippedCourse where
  id : Nat
  deriving DecidableEq

/-- Drop the four projected-out fields of a course. -/
def stripCourse (c : MongoCourse) : StrippedCourse :=
  { id := c.id }

/-- The assignment after the pipeline's `$project` removed `tests`,
`submissions` and `testBuildCMD`. -/
structure StrippedAssignment where
  id : Nat
  language : String
  version : String
  name : String
  numAttempts : Int
  description : String
  dueDate : Int
  published : Bool
  supportingFiles : Nat
  deriving DecidableEq

/-- Drop `tests`, `submissions` and `testBuildCMD` of an assignment. -/
def stripAssignment (a : AssignmentModels.MongoAssignment) :
    StrippedAssignment :=
  { id := a.id
    language := a.language
    version := a.version
    name := a.name
    numAttempts := a.numAttempts
    description := a.description
    dueDate := a.dueDate
    published := a.published
    supportingFiles := a.supportingFiles }

/-- One output document of `GetUsersRecentSubmissions`' `$project` stage:
joined course and assignment (first lookup hit, `none` when the join is
empty), the submission's own fields, and `results` filtered to
student-facing entries (`$filter` of a null array is null). -/
structure RecentProj where
  course : Option StrippedCourse
  assignmentID : Nat
  submissionDate : Int
  file : String
  errorTesting : Bool
  results : Option (List WorkerResult)
  attemptNumber : Int
  inProgress : Bool
  assignment : Option StrippedAssignment
  deriving DecidableEq

/-- The two `$lookup` stages plus the `$project` stage applied to one
submission document. -/
def projRecent (courses : List MongoCourse)
    (assignments : List AssignmentModels.MongoAssignment)
    (s : MongoSubmission) : RecentProj :=
  { course :=
      ((courses.filter (fun c => c.assignments.contains s.assignmentID)).head?).map
        stripCourse
    assignmentID := s.assignmentID
    submissionDate := s.submissionDate
    file := s.file
    errorTesting := s.errorTesting
    results := s.results.map (fun rs => rs.filter (fun r => r.studentFacing))
    attemptNumber := s.attemptNumber
    inProgress := s.inProgress
    assignment :=
      ((assignments.filter (fun a => a.id == s.assignmentID)).head?).map
        stripAssignment }

/-- Insert into a list kept sorted by `submissionDate` descending. -/
def insertByDate (p : RecentProj) : List RecentProj → List RecentProj
  | [] => [p]
  | x :: xs =>
    if x.submissionDate ≤ p.submissionDate then p :: x :: xs
    else x :: insertByDate p xs

/-- The `$sort {submissionDate: -1}` stage, as an insertion sort. -/
def sortByDateDesc (l : List RecentProj) : List RecentProj :=
  l.foldr insertByDate []

/-- The final `$match` stage: `$assignment.published = true` (false when
the assignment join was empty, since a missing path never equals true). -/
def publishedProj (p : RecentProj) : Bool :=
  match p.assignment with
  | some a => a.published
  | none => false

/-- Whether the submission's parent assignment exists (first `_id` match)
and is published. -/
def parentPublished (assignments : List AssignmentModels.MongoAssignment)
    (s : MongoSubmission) : Bool :=
  match (assignments.filter (fun a => a.id == s.assignmentID)).head? with
  | some a => a.published
  | none => false

/-- `GetUsersRecentSubmissions` from `submission.models.go`: `$match` on
`userID`, the two `$lookup`s and the `$project`, `$sort` by submission
date descending, `$limit`, and only then the `$match` on the parent
assignment's publication flag. -/
def GetUsersRecentSubmissions (courses : List MongoCourse)
    (assignments : List AssignmentModels.MongoAssignment)
    (subs : List MongoSubmission) (uid : Nat) (limit : Nat) :
    List RecentProj :=
  (((sortByDateDesc
        ((subs.filter (fun s => s.userID == uid)).map
          (projRecent courses assignments))).take limit).filter
    publishedProj)

/-- Modelled from the spec: the recent-submissions query as §4.4 words it
for the claim — the user's submissions whose parent assignment is
published, ordered by submission timestamp descending, capped at `limit`,
with `results` filtered to student-facing entries. -/
def specRecentSubmissions (courses : List MongoCourse)
    (assignments : List AssignmentModels.MongoAssignment)
    (subs : List MongoSubmission) (uid : Nat) (limit : Nat) :
    List RecentProj :=
  (sortByDateDesc
      ((subs.filter
          (fun s => s.userID == uid && parentPublished assignments s)).map
        (projRecent courses assignments))).take limit

end SubmissionModels

/-- A concrete submission used by the C9 and C10 witnesses' store. -/
def c9Submission : SubmissionModels.MongoSubmission :=
  { id := 3
    userID := 7
    fileID := 20
    assignmentID := 1
    attemptNumber := 1
    submissionDate := 5
    file := "sol.zip"
    errorTesting := false
    results := none
    inProgress := true }

/-- A successful dispatch environment used by concrete operation
sequences. -/
def okEnv : SubmissionModels.DispatchEnv :=
  { now := 0, marshalFails := false, response := some (200, .jobField "job1") }

/-- C2 counterexample sequence: a successful `Submit` followed by both
callbacks for the same submission id. -/
def c2CexOps : List SubmissionModels.Op :=
  [.submitOp 1 2 3 4 1 "sol.zip" okEnv, .errorOp 4, .gradeOp 4 (some [])]

/-- The record `c2CexOps` leaves behind: grading results populated while
the error flag is also set. -/
def c2MixedDoc : SubmissionModels.MongoSubmission :=
  { id := 4
    userID := 3
    fileID := 2
    assignmentID := 1
    attemptNumber := 1
    submissionDate := 0
    file := "sol.zip"
    errorTesting := true
    results := some []
    inProgress := false }

/-- A protocol-respecting sequence: one `Submit`, then one grading
callback. -/
def c2OkOps : List SubmissionModels.Op :=
  [.submitOp 1 2 3 4 1 "sol.zip" okEnv, .gradeOp 4 (some [])]

/-- The record `c2OkOps` leaves behind: graded, error flag clear. -/
def c2GradedDoc : SubmissionModels.MongoSubmission :=
  { id := 4
    userID := 3
    fileID := 2
    assignmentID := 1
    attemptNumber := 1
    submissionDate := 0
    file := "sol.zip"
    errorTesting := false
    results := some []
    inProgress := false }

/-- A worker result the student must not see. -/
def c3HiddenResult : SubmissionModels.WorkerResult :=
  { id := 1
    panicked := false
    passed := false
    studentFacing := false
    output := "secret"
    html := "h"
    testCMD := "t"
    name := "hidden" }

/-- A graded submission of user 7 holding only the non-student-facing
result. -/
def c3Submission : SubmissionModels.MongoSubmission :=
  { id := 10
    userID := 7
    fileID := 20
    assignmentID := 1
    attemptNumber := 1
    submissionDate := 5
    file := "sol.zip"
    errorTesting := false
    results := some [c3HiddenResult]
    inProgress := false }

/-- A published assignment whose roster references submission 10. -/
def c3Assignment : AssignmentModels.MongoAssignment :=
  { id := 1
    language := "go"
    version := "1.11"
    name := "hw1"
    numAttempts := 3
    description := "d"
    dueDate := 9
    published := true
    supportingFiles := 30
    testBuildCMD := "make"
    tests := []
    submissions := [{ userID := 7, submissionID := 10, attemptNumber := 1 }] }

/-- A published assignment (id 1) for the C4 stores. -/
def c4PublishedAssignment : AssignmentModels.MongoAssignment :=
  { id := 1
    language := "go"
    version := "1.11"
    name := "hw1"
    numAttempts := 3
    description := "d"
    dueDate := 9
    published := true
    supportingFiles := 30
    testBuildCMD := "make"
    tests := []
    submissions := [] }

/-- An unpublished assignment (id 2) for the C4 counterexample store. -/
def c4UnpublishedAssignment : AssignmentModels.MongoAssignment :=
  { id := 2
    language := "go"
    version := "1.11"
    name := "hw2"
    numAttempts := 3
    description := "d"
    dueDate := 9
    published := false
    supportingFiles := 31
    testBuildCMD := "make"
    tests := []
    submissions := [] }

/-- User 7's older submission, on the published assignment. -/
def c4OlderSubmission : SubmissionModels.MongoSubmission :=
  { id := 10
    userID := 7
    fileID := 20
    assignmentID := 1
    attemptNumber := 1
    submissionDate := 1
    file := "sol.zip"
    errorTesting := false
    results := some []
    inProgress := false }

/-- User 7's most recent submission, on the unpublished assignment. -/
def c4NewerSubmission : SubmissionModels.MongoSubmission :=
  { id := 11
    userID := 7
    fileID := 21
    assignmentID := 2
    attemptNumber := 1
    submissionDate := 2
    file := "sol2.zip"
    errorTesting := false
    results := some []
    inProgress := false }

/-- An assignment whose roster records attempts 1, 2 and 4 for user 7
(and attempt 9 for user 8), matching the spec's `latestAttempt`
example. -/
def c6Assignment : AssignmentModels.MongoAssignment :=
  { id := 1
    language := "go"
    version := "1.11"
    name := "hw1"
    numAttempts := 5
    description := "d"
    dueDate := 9
    published := true
    supportingFiles := 30
    testBuildCMD := "make"
    tests := []
    submissions :=
      [{ userID := 7, submissionID := 10, attemptNumber := 1 },
        { userID := 7, submissionID := 11, attemptNumber := 2 },
        { userID := 8, submissionID := 12, attemptNumber := 9 },
        { userID := 7, submissionID := 13, attemptNumber := 4 }] }

/-! ## Helper lemmas about the Mongo single-document operations -/

namespace MongoList

theorem updateFirst_eq_self (p : α → Bool) (f : α → α) (l : List α)
    (h : ∀ a ∈ l, p a = false) : updateFirst p f l = l := by
  induction l with
  | nil => rfl
  | cons x xs ih =>
    simp only [updateFirst, h x (List.mem_cons_self x xs),
      Bool.false_eq_true, if_false, List.cons.injEq, true_and]
    exact ih (fun a ha => h a (List.mem_cons_of_mem x ha))

theorem updateFirst_idem (p : α → Bool) (f : α → α) (l : List α)
    (hp : ∀ a, p a = true → p (f a) = true)
    (hf : ∀ a, p a = true → f (f a) = f a) :
    updateFirst p f (updateFirst p f l) = updateFirst p f l := by
  induction l with
  | nil => rfl
  | cons x xs ih =>
    by_cases hx : p x = true
    · simp only [updateFirst, hx, if_true, hp x hx, hf x hx]
    · have hx' : p x = false := by
        cases h' : p x
        · rfl
        · exact absurd h' hx
      simp only [updateFirst, hx', Bool.false_eq_true, if_false, ih]

theorem mem_updateFirst {p : α → Bool} {f : α → α} {l : List α} {b : α}
    (h : b ∈ updateFirst p f l) :
    b ∈ l ∨ ∃ a, a ∈ l ∧ p a = true ∧ b = f a := by
  induction l with
  | nil => simp [updateFirst] at h
  | cons x xs ih =>
    by_cases hx : p x = true
    · simp only [updateFirst, hx, if_true] at h
      rcases List.mem_cons.mp h with h1 | h2
      · exact Or.inr ⟨x, List.mem_cons_self x xs, hx, h1⟩
      · exact Or.inl (List.mem_cons_of_mem x h2)
    · have hx' : p x = false := by
        cases h' : p x
        · rfl
        · exact absurd h' hx
      simp only [updateFirst, hx', Bool.false_eq_true, if_false] at h
      rcases List.mem_cons.mp h with h1 | h2
      · exact Or.inl (h1 ▸ List.mem_cons_self x xs)
      · rcases ih h2 with h3 | ⟨a, ha, hpa, hb⟩
        · exact Or.inl (List.mem_cons_of_mem x h3)
        · exact Or.inr ⟨a, List.mem_cons_of_mem x ha, hpa, hb⟩

theorem mem_deleteFirst {p : α → Bool} {l : List α} {b : α}
    (h : b ∈ deleteFirst p l) : b ∈ l := by
  induction l with
  | nil => simp [deleteFirst] at h
  | cons x xs ih =>
    by_cases hx : p x = true
    · simp only [deleteFirst, hx, if_true] at h
      exact List.mem_cons_of_mem x h
    · have hx' : p x = false := by
        cases h' : p x
        · rfl
        · exact absurd h' hx
      simp only [deleteFirst, hx', Bool.false_eq_true, if_false] at h
      rcases List.mem_cons.mp h with h1 | h2
      · exact h1 ▸ List.mem_cons_self x xs
      · exact List.mem_cons_of_mem x (ih h2)

theorem deleteFirst_append_singleton (p : α → Bool) (l : List α) (a : α)
    (h : ∀ b ∈ l, p b = false) (ha : p a = true) :
    deleteFirst p (l ++ [a]) = l := by
  induction l with
  | nil => simp [deleteFirst, ha]
  | cons x xs ih =>
    have hx : p x = false := h x (List.mem_cons_self x xs)
    simp only [List.cons_append, deleteFirst, hx, Bool.false_eq_true,
      if_false, List.cons.injEq, true_and]
    exact ih (fun b hb => h b (List.mem_cons_of_mem x hb))

theorem map_updateFirst (p : α → Bool) (f : α → α) (g : α → β) (l : List α)
    (h : ∀ a, g (f a) = g a) :
    (updateFirst p f l).map g = l.map g := by
  induction l with
  | nil => rfl
  | cons x xs ih =>
    by_cases hx : p x = true
    · simp only [updateFirst, hx, if_true, List.map_cons, h x]
    · have hx' : p x = false := by
        cases h' : p x
        · rfl
        · exact absurd h' hx
      simp only [updateFirst, hx', Bool.false_eq_true, if_false,
        List.map_cons, ih]

end MongoList

/-! ## C7: `Update` touches only the whitelisted assignment fields -/

/-- C7.  For every assignments collection and every `Update` call, the
identifier, the supporting-files reference and the embedded submission
list of every stored record are unchanged: projecting each record to the
triple of those non-whitelisted fields yields the same list before and
after the update, so `Update` modifies only the whitelisted fields
(language, version, name, description, due date, publication flag, build
command, tests, attempt cap). -/
theorem update_preserves_non_whitelisted_fields
    (store : List AssignmentModels.MongoAssignment)
    (assign : AssignmentModels.MongoAssignment) :
    (AssignmentModels.Update store assign).map
        (fun a => (a.id, a.supportingFiles, a.submissions))
      = store.map (fun a => (a.id, a.supportingFiles, a.submissions)) := by
  exact MongoList.map_updateFirst _ _ _ store (fun a => rfl)

/-! ## C8: the grading callbacks are idempotent at the storage layer -/

/-- C8.  Applying `UpdateGrade` with the same submission id and results
twice leaves exactly the state one application leaves, and likewise for
`UpdateError`: the callbacks are idempotent at the storage layer. -/
theorem grade_and_error_callbacks_idempotent
    (store : List SubmissionModels.MongoSubmission) (sid : Nat)
    (results : Option (List SubmissionModels.WorkerResult)) :
    SubmissionModels.UpdateGrade
        (SubmissionModels.UpdateGrade store sid results).1 sid results
      = SubmissionModels.UpdateGrade store sid results
    ∧ SubmissionModels.UpdateError
        (SubmissionModels.UpdateError store sid).1 sid
      = SubmissionModels.UpdateError store sid := by
  constructor
  · have h := MongoList.updateFirst_idem
      (fun d : SubmissionModels.MongoSubmission => d.id == sid)
      (SubmissionModels.setGrade results) store
      (fun a ha => ha) (fun a _ => rfl)
    simpa [SubmissionModels.UpdateGrade] using h
  · have h := MongoList.updateFirst_idem
      (fun d : SubmissionModels.MongoSubmission => d.id == sid)
      SubmissionModels.setError store
      (fun a ha => ha) (fun a _ => rfl)
    simpa [SubmissionModels.UpdateError] using h

/-! ## C9: callbacks for an absent submission id are silently accepted -/

/-- C9.  When no stored submission has id `sid`, both `UpdateGrade` and
`UpdateError` leave the store unchanged and report success (a nil error):
a grading callback for a nonexistent or already-deleted submission is
silently accepted rather than reported as not found. -/
theorem callbacks_on_absent_id_are_noops
    (store : List SubmissionModels.MongoSubmission) (sid : Nat)
    (results : Option (List SubmissionModels.WorkerResult))
    (h : ∀ d ∈ store, d.id ≠ sid) :
    SubmissionModels.UpdateGrade store sid results = (store, none)
    ∧ SubmissionModels.UpdateError store sid = (store, none) := by
  have hfalse : ∀ d ∈ store, (d.id == sid) = false := by
    intro d hd
    exact beq_eq_false_iff_ne.mpr (h d hd)
  constructor
  · have := MongoList.updateFirst_eq_self
      (fun d : SubmissionModels.MongoSubmission => d.id == sid)
      (SubmissionModels.setGrade results) store hfalse
    simpa [SubmissionModels.UpdateGrade] using this
  · have := MongoList.updateFirst_eq_self
      (fun d : SubmissionModels.MongoSubmission => d.id == sid)
      SubmissionModels.setError store hfalse
    simpa [SubmissionModels.UpdateError] using this

/-- Witness for C9 at a concrete store: id 4 is absent from the
one-element store holding id 3, so both callbacks return it unchanged
with a nil error. -/
theorem callbacks_on_absent_id_are_noops_witness :
    SubmissionModels.UpdateGrade [c9Submission] 4 (some []) = ([c9Submission], none)
    ∧ SubmissionModels.UpdateError [c9Submission] 4 = ([c9Submission], none) :=
  callbacks_on_absent_id_are_noops [c9Submission] 4 (some [])
    (by decide)

/-! ## C10: `Get` null-safety of results per role -/

/-- C10.  For a submission id present in the store, `Get` with the student
role returns the record with a non-null results list — the stored results
(an empty list when they are null) filtered to student-facing entries —
while `Get` with any other role returns the record exactly as stored,
results field included. -/
theorem get_results_by_role
    (store : List SubmissionModels.MongoSubmission) (sid : Nat)
    (sub : SubmissionModels.MongoSubmission) (role : String)
    (hfind : store.find? (fun d => d.id == sid) = some sub)
    (hrole : role ≠ "student") :
    SubmissionModels.Get store sid "student"
      = .ok { sub with
          results := some ((sub.results.getD []).filter
            (fun r => r.studentFacing)) }
    ∧ SubmissionModels.Get store sid role = .ok sub := by
  have hrole' : (role == "student") = false := beq_eq_false_iff_ne.mpr hrole
  constructor
  · simp [SubmissionModels.Get, hfind]
  · simp [SubmissionModels.Get, hfind, hrole']

/-- Witness for C10 at a concrete store: the stored results are null, the
student role receives an empty non-null list, the professor role receives
the null results unchanged. -/
theorem get_results_by_role_witness :
    SubmissionModels.Get [c9Submission] 3 "student"
      = .ok { c9Submission with results := some [] }
    ∧ SubmissionModels.Get [c9Submission] 3 "professor" = .ok c9Submission :=
  get_results_by_role [c9Submission] 3 c9Submission "professor"
    (by decide) (by decide)

/-! ## C1: the `Submit` dispatch decision table with compensating delete -/

namespace SubmissionModels

theorem any_id_eq_false {store : List MongoSubmission} {sid : Nat}
    (hfresh : ∀ d ∈ store, d.id ≠ sid) :
    (store.any fun d => d.id == sid) = false := by
  rw [List.any_eq_false]
  intro d hd
  simp only [beq_iff_eq]
  exact hfresh d hd

theorem delete_inserted_of_fresh (store : List MongoSubmission)
    (sid : Nat) (sub : MongoSubmission)
    (hfresh : ∀ d ∈ store, d.id ≠ sid) (hsub : sub.id = sid) :
    MongoList.deleteFirst (fun d => d.id == sid) (store ++ [sub]) = store := by
  apply MongoList.deleteFirst_append_singleton
  · intro b hb
    exact beq_eq_false_iff_ne.mpr (hfresh b hb)
  · exact beq_iff_eq.mpr hsub

end SubmissionModels

/-- C1.  For every `Submit` whose submission id is fresh (so the insert
succeeds), the dispatch decision table holds: a payload-serialization
failure deletes the just-created record (the store returns to its prior
contents) and reports `ErrorInvalidJSON`; no response deletes it and
reports `ErrorUnableToReachMicroService`; a status outside 2xx deletes it
and reports `ErrorUnableToCreateJob`; a 2xx response carrying a string
`job` field returns that job handle while the record remains persisted
with `inProgress = true` and null results. -/
theorem submit_dispatch_decision_table
    (store : List SubmissionModels.MongoSubmission) (aid fid uid sid : Nat)
    (attempt : Int) (filename : String) (env : SubmissionModels.DispatchEnv)
    (hfresh : ∀ d ∈ store, d.id ≠ sid) :
    (env.marshalFails = true →
      SubmissionModels.Submit store aid fid uid sid attempt filename env
        = (store, .err .ErrorInvalidJSON))
    ∧ (env.marshalFails = false → env.response = none →
      SubmissionModels.Submit store aid fid uid sid attempt filename env
        = (store, .err .ErrorUnableToReachMicroService))
    ∧ (∀ status body, env.marshalFails = false →
        env.response = some (status, body) →
        (status < 200 ∨ 300 ≤ status) →
        SubmissionModels.Submit store aid fid uid sid attempt filename env
          = (store, .err .ErrorUnableToCreateJob))
    ∧ (∀ status job, env.marshalFails = false →
        env.response = some (status, .jobField job) →
        200 ≤ status → status < 300 →
        SubmissionModels.Submit store aid fid uid sid attempt filename env
          = (store ++ [SubmissionModels.mkSubmission aid fid uid sid attempt
              filename env.now], .ok job)
        ∧ (SubmissionModels.mkSubmission aid fid uid sid attempt filename
            env.now).inProgress = true
        ∧ (SubmissionModels.mkSubmission aid fid uid sid attempt filename
            env.now).results = none) := by
  have hany := SubmissionModels.any_id_eq_false hfresh
  have hdel := SubmissionModels.delete_inserted_of_fresh store sid
    (SubmissionModels.mkSubmission aid fid uid sid attempt filename env.now)
    hfresh rfl
  refine ⟨?_, ?_, ?_, ?_⟩
  · intro hm
    simp [SubmissionModels.Submit, SubmissionModels.Delete, hany, hm, hdel]
  · intro hm hr
    simp [SubmissionModels.Submit, SubmissionModels.Delete, hany, hm, hr, hdel]
  · intro status body hm hr hs
    have hs' : (status < 200 || 300 ≤ status) = true := by
      rcases hs with h | h
      · simp [h]
      · simp [h]
    simp [SubmissionModels.Submit, SubmissionModels.Delete, hany, hm, hr,
      hs', hdel]
  · intro status job hm hr h200 h300
    have hs' : (status < 200 || 300 ≤ status) = false := by
      simp [Nat.not_lt.mpr h200, Nat.not_le.mpr h300]
    refine ⟨?_, rfl, rfl⟩
    simp [SubmissionModels.Submit, hany, hm, hr, hs']

/-- Witness for C1 at a concrete call: from the empty store, a `Submit`
whose payload serialization fails leaves the store empty and reports
`ErrorInvalidJSON`. -/
theorem submit_dispatch_decision_table_witness :
    SubmissionModels.Submit [] 1 2 3 4 1 "sol.zip"
        { now := 0, marshalFails := true, response := none }
      = ([], .err .ErrorInvalidJSON) :=
  (submit_dispatch_decision_table [] 1 2 3 4 1 "sol.zip"
      { now := 0, marshalFails := true, response := none }
      (by intro d hd; cases hd)).1 rfl

/-! ## C5: a 2xx response with a malformed body panics -/

/-- C5 (code bug evaluation).  At the concrete failing input — a fresh
submission id and a response with status 200 whose body is malformed JSON
or lacks a string-valued `job` field — `Submit` does not return an error:
the ignored `json.Unmarshal` error and the unchecked type assertion
`data["job"].(string)` raise a runtime panic, and the just-created record
is left persisted in progress rather than rolled back. -/
theorem submit_malformed_success_body_panics :
    SubmissionModels.Submit [] 1 2 3 4 1 "sol.zip"
        { now := 0, marshalFails := false, response := some (200, .noJobField) }
      = ([SubmissionModels.mkSubmission 1 2 3 4 1 "sol.zip" 0],
          .panicked) := rfl

/-! ## C2: the exactly-one-terminal-state invariant -/

namespace SubmissionModels

theorem submit_fst_mem {store : List MongoSubmission}
    {aid fid uid sid : Nat} {attempt : Int} {filename : String}
    {env : DispatchEnv} {d : MongoSubmission}
    (h : d ∈ (Submit store aid fid uid sid attempt filename env).1) :
    d ∈ store ∨ d = mkSubmission aid fid uid sid attempt filename env.now := by
  have hsub : (Submit store aid fid uid sid attempt filename env).1
      ⊆ store ++ [mkSubmission aid fid uid sid attempt filename env.now] := by
    by_cases h1 : (store.any fun x => x.id == sid) = true
    · have he : (Submit store aid fid uid sid attempt filename env).1 = store := by
        simp [Submit, h1]
      rw [he]
      exact List.subset_append_left _ _
    · have h1' : (store.any fun x => x.id == sid) = false := by
        cases hx : store.any fun x => x.id == sid
        · rfl
        · exact absurd hx h1
      by_cases h2 : env.marshalFails = true
      · have he : (Submit store aid fid uid sid attempt filename env).1
            = MongoList.deleteFirst (fun x => x.id == sid)
              (store ++ [mkSubmission aid fid uid sid attempt filename env.now]) := by
          simp [Submit, Delete, h1', h2]
        rw [he]
        intro x hx
        exact MongoList.mem_deleteFirst hx
      · have h2' : env.marshalFails = false := by
          cases hx : env.marshalFails
          · rfl
          · exact absurd hx h2
        cases h3 : env.response with
        | none =>
          have he : (Submit store aid fid uid sid attempt filename env).1
              = MongoList.deleteFirst (fun x => x.id == sid)
                (store ++ [mkSubmission aid fid uid sid attempt filename env.now]) := by
            simp [Submit, Delete, h1', h2', h3]
          rw [he]
          intro x hx
          exact MongoList.mem_deleteFirst hx
        | some sb =>
          obtain ⟨status, body⟩ := sb
          by_cases h4 : (status < 200 || 300 ≤ status) = true
          · have he : (Submit store aid fid uid sid attempt filename env).1
                = MongoList.deleteFirst (fun x => x.id == sid)
                  (store ++ [mkSubmission aid fid uid sid attempt filename env.now]) := by
              simp [Submit, Delete, h1', h2', h3, h4]
            rw [he]
            intro x hx
            exact MongoList.mem_deleteFirst hx
          · have h4' : (status < 200 || 300 ≤ status) = false := by
              cases hx : (status < 200 || 300 ≤ status)
              · rfl
              · exact absurd hx h4
            cases body with
            | jobField job =>
              have he : (Submit store aid fid uid sid attempt filename env).1
                  = store ++ [mkSubmission aid fid uid sid attempt filename env.now] := by
                simp [Submit, h1', h2', h3, h4']
              rw [he]
              exact fun x hx => hx
            | noJobField =>
              have he : (Submit store aid fid uid sid attempt filename env).1
                  = store ++ [mkSubmission aid fid uid sid attempt filename env.now] := by
                simp [Submit, h1', h2', h3, h4']
              rw [he]
              exact fun x hx => hx
  rcases List.mem_append.mp (hsub h) with hm | hm
  · exact Or.inl hm
  · exact Or.inr (List.mem_singleton.mp hm)

theorem mkSubmission_freshlyInProgress (aid fid uid sid : Nat)
    (attempt : Int) (filename : String) (now : Int) :
    freshlyInProgress (mkSubmission aid fid uid sid attempt filename now) :=
  ⟨rfl, rfl, rfl⟩

theorem stateCount_of_fresh {d : MongoSubmission}
    (h : freshlyInProgress d) : stateCount d = 1 := by
  obtain ⟨h1, h2, h3⟩ := h
  simp [stateCount, inProgressState, gradedState, errorState, h1, h2, h3]

theorem stateCount_setGrade_of_fresh {d : MongoSubmission}
    (h : freshlyInProgress d) (rs : List WorkerResult) :
    stateCount (setGrade (some rs) d) = 1 := by
  obtain ⟨h1, h2, h3⟩ := h
  simp [stateCount, setGrade, inProgressState, gradedState, errorState, h3]

theorem stateCount_setError_of_fresh {d : MongoSubmission}
    (h : freshlyInProgress d) : stateCount (setError d) = 1 := by
  obtain ⟨h1, h2, h3⟩ := h
  simp [stateCount, setError, inProgressState, gradedState, errorState, h2]

theorem runOps_aux (ops : List Op) :
    ∀ store : List MongoSubmission,
      singleCallbackPer ops →
      (∀ op ∈ ops, gradeNonNull op = true) →
      (∀ d ∈ store, exactlyOneState d) →
      (∀ d ∈ store, (∃ op ∈ ops, isCallbackFor d.id op = true) →
        freshlyInProgress d) →
      ∀ d ∈ ops.foldl applyOp store, exactlyOneState d := by
  induction ops with
  | nil =>
    intro store _ _ hone _ d hd
    exact hone d (by simpa using hd)
  | cons op rest ih =>
    intro store hpair hnn hone hpend
    rw [List.foldl_cons]
    have hhead := (List.pairwise_cons.mp hpair).1
    have htail := (List.pairwise_cons.mp hpair).2
    refine ih (applyOp store op) htail
      (fun o ho => hnn o (List.mem_cons_of_mem _ ho)) ?_ ?_
    · intro d hd
      cases op with
      | submitOp aid fid uid sid attempt filename env =>
        rcases submit_fst_mem (show d ∈ (Submit store aid fid uid sid attempt
            filename env).1 from hd) with hm | hm
        · exact hone d hm
        · rw [hm]
          exact stateCount_of_fresh
            (mkSubmission_freshlyInProgress aid fid uid sid attempt filename env.now)
      | gradeOp sid rs =>
        have hnnop : gradeNonNull (Op.gradeOp sid rs) = true :=
          hnn _ (List.mem_cons_self _ _)
        cases rs with
        | none => simp [gradeNonNull] at hnnop
        | some rsl =>
          have hd' : d ∈ MongoList.updateFirst (fun x => x.id == sid)
              (setGrade (some rsl)) store := hd
          rcases MongoList.mem_updateFirst hd' with hm | ⟨a, ha, hpa, hda⟩
          · exact hone d hm
          · have hfa : freshlyInProgress a := by
              apply hpend a ha
              refine ⟨Op.gradeOp sid (some rsl), List.mem_cons_self _ _, ?_⟩
              simp only [isCallbackFor, target?, Option.some.injEq, beq_iff_eq]
              exact (beq_iff_eq.mp hpa).symm
            rw [hda]
            exact stateCount_setGrade_of_fresh hfa rsl
      | errorOp sid =>
        have hd' : d ∈ MongoList.updateFirst (fun x => x.id == sid)
            setError store := hd
        rcases MongoList.mem_updateFirst hd' with hm | ⟨a, ha, hpa, hda⟩
        · exact hone d hm
        · have hfa : freshlyInProgress a := by
            apply hpend a ha
            refine ⟨Op.errorOp sid, List.mem_cons_self _ _, ?_⟩
            simp only [isCallbackFor, target?, Option.some.injEq, beq_iff_eq]
            exact (beq_iff_eq.mp hpa).symm
          rw [hda]
          exact stateCount_setError_of_fresh hfa
    · intro d hd hex
      cases op with
      | submitOp aid fid uid sid attempt filename env =>
        rcases submit_fst_mem (show d ∈ (Submit store aid fid uid sid attempt
            filename env).1 from hd) with hm | hm
        · obtain ⟨o, ho, hcb⟩ := hex
          exact hpend d hm ⟨o, List.mem_cons_of_mem _ ho, hcb⟩
        · rw [hm]
          exact mkSubmission_freshlyInProgress aid fid uid sid attempt filename env.now
      | gradeOp sid rs =>
        have hd' : d ∈ MongoList.updateFirst (fun x => x.id == sid)
            (setGrade rs) store := hd
        rcases MongoList.mem_updateFirst hd' with hm | ⟨a, ha, hpa, hda⟩
        · obtain ⟨o, ho, hcb⟩ := hex
          exact hpend d hm ⟨o, List.mem_cons_of_mem _ ho, hcb⟩
        · exfalso
          obtain ⟨o, ho, hcb⟩ := hex
          have hclash : clash (Op.gradeOp sid rs) o = false := hhead o ho
          have hid : d.id = sid := by
            rw [hda]
            exact beq_iff_eq.mp hpa
          rw [hid] at hcb
          have hto : target? o = some sid := by
            simpa [isCallbackFor] using hcb
          cases o with
          | submitOp a1 a2 a3 a4 a5 a6 a7 => simp [target?] at hto
          | gradeOp s2 r2 =>
            simp only [target?, Option.some.injEq] at hto
            rw [hto] at hclash
            simp [clash, target?] at hclash
          | errorOp s2 =>
            simp only [target?, Option.some.injEq] at hto
            rw [hto] at hclash
            simp [clash, target?] at hclash
      | errorOp sid =>
        have hd' : d ∈ MongoList.updateFirst (fun x => x.id == sid)
            setError store := hd
        rcases MongoList.mem_updateFirst hd' with hm | ⟨a, ha, hpa, hda⟩
        · obtain ⟨o, ho, hcb⟩ := hex
          exact hpend d hm ⟨o, List.mem_cons_of_mem _ ho, hcb⟩
        · exfalso
          obtain ⟨o, ho, hcb⟩ := hex
          have hclash : clash (Op.errorOp sid) o = false := hhead o ho
          have hid : d.id = sid := by
            rw [hda]
            exact beq_iff_eq.mp hpa
          rw [hid] at hcb
          have hto : target? o = some sid := by
            simpa [isCallbackFor] using hcb
          cases o with
          | submitOp a1 a2 a3 a4 a5 a6 a7 => simp [target?] at hto
          | gradeOp s2 r2 =>
            simp only [target?, Option.some.injEq] at hto
            rw [hto] at hclash
            simp [clash, target?] at hclash
          | errorOp s2 =>
            simp only [target?, Option.some.injEq] at hto
            rw [hto] at hclash
            simp [clash, target?] at hclash

end SubmissionModels

/-- C2 counterexample.  The concrete sequence `c2CexOps` — a successful
`Submit` followed by `UpdateError` and then `UpdateGrade` for the same
submission — leaves a record satisfying two of the three terminal-state
descriptions at once (`inProgress = false`, `results` populated, and
`errorTesting = true`), so the claim that every reachable record is in
exactly one terminal state is false as stated. -/
theorem double_callback_reaches_mixed_state :
    SubmissionModels.runOps c2CexOps = [c2MixedDoc]
    ∧ SubmissionModels.stateCount c2MixedDoc = 2 := ⟨rfl, rfl⟩

/-- C2 (amended).  For every submission record reachable by a sequence of
`Submit`, `UpdateGrade` and `UpdateError` operations in which no
submission id receives more than one grading callback and every
`UpdateGrade` carries a non-null results list, exactly one of the three
terminal states holds at rest: in progress, graded, or error. -/
theorem exactly_one_terminal_state_of_protocol
    (ops : List SubmissionModels.Op)
    (h1 : SubmissionModels.singleCallbackPer ops)
    (h2 : ∀ op ∈ ops, SubmissionModels.gradeNonNull op = true) :
    ∀ d ∈ SubmissionModels.runOps ops, SubmissionModels.exactlyOneState d :=
  SubmissionModels.runOps_aux ops [] h1 h2
    (fun d hd => absurd hd (List.not_mem_nil d))
    (fun d hd _ => absurd hd (List.not_mem_nil d))

/-- Witness for the amended C2 at a concrete protocol-respecting
sequence: after one `Submit` and one `UpdateGrade`, the resulting record
is in exactly one terminal state. -/
theorem exactly_one_terminal_state_of_protocol_witness :
    SubmissionModels.exactlyOneState c2GradedDoc :=
  exactly_one_terminal_state_of_protocol c2OkOps
    (by
      simp [SubmissionModels.singleCallbackPer, c2OkOps, List.pairwise_cons,
        SubmissionModels.clash, SubmissionModels.target?])
    (by decide) c2GradedDoc (by decide)

/-! ## C3: the student view of `GetFull` -/

/-- C3 (code bug evaluation).  At the concrete failing input — a published
assignment whose roster references the requester's own graded submission,
which holds a single result with `studentFacing = false` — the student
branch of `GetFull` joins only the requester's submission and filters the
tests, but returns that submission's results unfiltered: the
non-student-facing result reaches the student, contrary to the claimed
`studentFacing = true` filter on each joined submission's results. -/
theorem getfull_student_returns_unfiltered_results :
    AssignmentModels.GetFullStudent [c3Assignment] [c3Submission] 1 7
        = some
          { id := 1
            language := "go"
            version := "1.11"
            name := "hw1"
            numAttempts := 3
            description := "d"
            supportingFiles := 30
            dueDate := 9
            published := true
            testBuildCMD := "make"
            tests := []
            submissions := [c3Submission] }
    ∧ c3Submission.results = some [c3HiddenResult]
    ∧ c3HiddenResult.studentFacing = false := ⟨rfl, rfl, rfl⟩

/-! ## C6: `LatestUserSubmission` computes the user's maximum attempt -/

namespace AssignmentModels

theorem latestStep_ge (uid : Nat) (att : Int) (s : AssignmentSubmission) :
    att ≤ latestStep uid att s := by
  unfold latestStep
  split
  · rename_i h
    have h2 : att < s.attemptNumber := by
      simp only [Bool.and_eq_true, decide_eq_true_eq] at h
      exact h.2
    exact le_of_lt h2
  · exact le_refl _

theorem foldl_latestStep_mono (uid : Nat) (subs : List AssignmentSubmission) :
    ∀ att, att ≤ subs.foldl (latestStep uid) att := by
  induction subs with
  | nil => intro att; exact le_refl _
  | cons s rest ih =>
    intro att
    simp only [List.foldl_cons]
    exact le_trans (latestStep_ge uid att s) (ih _)

theorem foldl_latestStep_ub (uid : Nat) (subs : List AssignmentSubmission) :
    ∀ att s, s ∈ subs → s.userID = uid →
      s.attemptNumber ≤ subs.foldl (latestStep uid) att := by
  induction subs with
  | nil => intro att s hs; cases hs
  | cons x rest ih =>
    intro att s hs hu
    simp only [List.foldl_cons]
    rcases List.mem_cons.mp hs with heq | hmem
    · subst heq
      refine le_trans ?_ (foldl_latestStep_mono uid rest (latestStep uid att s))
      unfold latestStep
      split
      · exact le_refl _
      · rename_i h
        have hnlt : ¬ (att < s.attemptNumber) := by
          intro hlt
          apply h
          simp only [Bool.and_eq_true, decide_eq_true_eq, beq_iff_eq]
          exact ⟨hu, hlt⟩
        exact le_of_not_lt hnlt
    · exact ih (latestStep uid att x) s hmem hu

theorem foldl_latestStep_attained (uid : Nat)
    (subs : List AssignmentSubmission) :
    ∀ att, subs.foldl (latestStep uid) att = att
      ∨ ∃ s ∈ subs, s.userID = uid
          ∧ subs.foldl (latestStep uid) att = s.attemptNumber := by
  induction subs with
  | nil => intro att; exact Or.inl rfl
  | cons x rest ih =>
    intro att
    simp only [List.foldl_cons]
    rcases ih (latestStep uid att x) with h | ⟨s, hs, hu, he⟩
    · by_cases hc : (x.userID == uid && decide (x.attemptNumber > att)) = true
      · right
        refine ⟨x, List.mem_cons_self _ _, ?_, ?_⟩
        · simp only [Bool.and_eq_true, beq_iff_eq] at hc
          exact hc.1
        · rw [h]
          unfold latestStep
          rw [if_pos hc]
      · left
        rw [h]
        unfold latestStep
        rw [if_neg hc]
    · exact Or.inr ⟨s, List.mem_cons_of_mem _ hs, hu, he⟩

theorem foldl_latestStep_no_user (uid : Nat) :
    ∀ subs : List AssignmentSubmission, (∀ s ∈ subs, s.userID ≠ uid) →
      ∀ att, subs.foldl (latestStep uid) att = att := by
  intro subs
  induction subs with
  | nil => intro _ att; rfl
  | cons x rest ih =>
    intro h att
    simp only [List.foldl_cons]
    have hx : (x.userID == uid) = false :=
      beq_eq_false_iff_ne.mpr (h x (List.mem_cons_self x rest))
    have hstep : latestStep uid att x = att := by
      unfold latestStep
      rw [if_neg]
      simp [hx]
    rw [hstep]
    exact ih (fun s hs => h s (List.mem_cons_of_mem x hs)) att

end AssignmentModels

/-- C6.  When the assignment is found, `LatestUserSubmission` returns it
together with the roster scan's value, which is 0 when the roster holds no
entry for the user, and otherwise (given the attempt numbers of the
user's entries are non-negative, as the lifecycle produces) is an upper
bound of the user's attempt numbers that is attained by one of the user's
entries — i.e. their maximum recorded attempt number. -/
theorem latest_user_submission_attempts
    (assignments : List AssignmentModels.MongoAssignment) (aid uid : Nat)
    (a : AssignmentModels.MongoAssignment)
    (hfind : assignments.find? (fun x => x.id == aid) = some a)
    (hpos : ∀ s ∈ a.submissions, s.userID = uid → 0 ≤ s.attemptNumber) :
    AssignmentModels.LatestUserSubmission assignments aid uid
      = some (a, AssignmentModels.latestAttemptFold a.submissions uid)
    ∧ ((∀ s ∈ a.submissions, s.userID ≠ uid) →
        AssignmentModels.latestAttemptFold a.submissions uid = 0)
    ∧ (∀ s ∈ a.submissions, s.userID = uid →
        s.attemptNumber ≤ AssignmentModels.latestAttemptFold a.submissions uid)
    ∧ ((∃ s ∈ a.submissions, s.userID = uid) →
        ∃ s ∈ a.submissions, s.userID = uid
          ∧ s.attemptNumber
              = AssignmentModels.latestAttemptFold a.submissions uid) := by
  refine ⟨?_, ?_, ?_, ?_⟩
  · simp [AssignmentModels.LatestUserSubmission, hfind]
  · intro h
    exact AssignmentModels.foldl_latestStep_no_user uid a.submissions h 0
  · intro s hs hu
    exact AssignmentModels.foldl_latestStep_ub uid a.submissions 0 s hs hu
  · intro hex
    rcases AssignmentModels.foldl_latestStep_attained uid a.submissions 0
      with h0 | ⟨s, hs, hu, he⟩
    · obtain ⟨s0, hs0, hu0⟩ := hex
      refine ⟨s0, hs0, hu0, ?_⟩
      have hub := AssignmentModels.foldl_latestStep_ub uid a.submissions 0 s0 hs0 hu0
      have hge := hpos s0 hs0 hu0
      have hfold : AssignmentModels.latestAttemptFold a.submissions uid = 0 := h0
      rw [hfold]
      exact le_antisymm (h0 ▸ hub) hge
    · exact ⟨s, hs, hu, he.symm⟩

/-- Witness for C6 at the spec's example: user 7's recorded attempts are
1, 2 and 4 (user 8 has attempt 9), and the returned latest attempt is 4. -/
theorem latest_user_submission_attempts_witness :
    AssignmentModels.LatestUserSubmission [c6Assignment] 1 7
      = some (c6Assignment, 4) :=
  (latest_user_submission_attempts [c6Assignment] 1 7 c6Assignment
      (by decide) (by decide)).1

/-! ## C4: the recent-submissions query -/

namespace SubmissionModels

theorem mem_insertByDate {p x : RecentProj} {l : List RecentProj} :
    x ∈ insertByDate p l ↔ x = p ∨ x ∈ l := by
  induction l with
  | nil => simp [insertByDate]
  | cons y ys ih =>
    unfold insertByDate
    split
    · simp [List.mem_cons]
    · simp only [List.mem_cons, ih]
      tauto

theorem mem_sortByDateDesc {x : RecentProj} {l : List RecentProj} :
    x ∈ sortByDateDesc l ↔ x ∈ l := by
  induction l with
  | nil => simp [sortByDateDesc]
  | cons y ys ih =>
    have hstep : sortByDateDesc (y :: ys) = insertByDate y (sortByDateDesc ys) :=
      rfl
    rw [hstep, mem_insertByDate, ih, List.mem_cons]

theorem publishedProj_projRecent (courses : List MongoCourse)
    (assignments : List AssignmentModels.MongoAssignment)
    (s : MongoSubmission) :
    publishedProj (projRecent courses assignments s)
      = parentPublished assignments s := by
  unfold publishedProj projRecent parentPublished
  cases h : (assignments.filter (fun a => a.id == s.assignmentID)).head? with
  | none => simp [h]
  | some a => simp [h, stripAssignment]

end SubmissionModels

/-- C4 counterexample.  In a concrete store where user 7's most recent
submission belongs to an unpublished assignment and an older one to a
published assignment, the query with `limit = 1` returns nothing: the
`$limit` stage runs before the publication `$match`, so the unpublished
submission consumes the only slot.  The claim's reading — the 1 most
recent submission among those whose parent assignment is published, here
the older submission — differs, so the claim is false as stated. -/
theorem recent_submissions_misses_qualifying :
    SubmissionModels.GetUsersRecentSubmissions []
        [c4PublishedAssignment, c4UnpublishedAssignment]
        [c4OlderSubmission, c4NewerSubmission] 7 1 = []
    ∧ SubmissionModels.specRecentSubmissions []
        [c4PublishedAssignment, c4UnpublishedAssignment]
        [c4OlderSubmission, c4NewerSubmission] 7 1
      = [SubmissionModels.projRecent []
          [c4PublishedAssignment, c4UnpublishedAssignment]
          c4OlderSubmission] := ⟨rfl, rfl⟩

/-- C4 (amended).  The query sorts the user's submissions by timestamp
descending, caps at `limit`, and only then drops those whose parent
assignment is unpublished; it therefore returns the published-assignment
submissions among the `limit` most recent ones.  Whenever every
submission of the user has a published parent assignment — in particular
in the spec's scenario of 5 qualifying submissions and `limit = 2` — this
coincides with the claimed behaviour: exactly the `limit` most recent
qualifying submissions, results filtered to student-facing entries. -/
theorem recent_submissions_eq_spec_of_all_published
    (courses : List SubmissionModels.MongoCourse)
    (assignments : List AssignmentModels.MongoAssignment)
    (subs : List SubmissionModels.MongoSubmission) (uid : Nat) (limit : Nat)
    (h : ∀ s ∈ subs, s.userID = uid →
      SubmissionModels.parentPublished assignments s = true) :
    SubmissionModels.GetUsersRecentSubmissions courses assignments subs uid limit
      = SubmissionModels.specRecentSubmissions courses assignments subs uid
          limit := by
  unfold SubmissionModels.GetUsersRecentSubmissions
    SubmissionModels.specRecentSubmissions
  have hfe : subs.filter
        (fun s => s.userID == uid
          && SubmissionModels.parentPublished assignments s)
      = subs.filter (fun s => s.userID == uid) := by
    apply List.filter_congr
    intro s hs
    by_cases hu : (s.userID == uid) = true
    · simp [hu, h s hs (beq_iff_eq.mp hu)]
    · have hu' : (s.userID == uid) = false := by
        cases hx : s.userID == uid
        · rfl
        · exact absurd hx hu
      simp [hu']
  rw [hfe]
  apply List.filter_eq_self.mpr
  intro p hp
  have hp1 : p ∈ SubmissionModels.sortByDateDesc
      ((subs.filter (fun s => s.userID == uid)).map
        (SubmissionModels.projRecent courses assignments)) :=
    (List.take_sublist _ _).subset hp
  have hp2 : p ∈ (subs.filter (fun s => s.userID == uid)).map
      (SubmissionModels.projRecent courses assignments) :=
    SubmissionModels.mem_sortByDateDesc.mp hp1
  obtain ⟨s, hs, hps⟩ := List.mem_map.mp hp2
  have hs' := List.mem_filter.mp hs
  rw [← hps, SubmissionModels.publishedProj_projRecent]
  exact h s hs'.1 (beq_iff_eq.mp hs'.2)

/-- Witness for the amended C4 at a concrete store in which the user's
only submission has a published parent assignment: the code's query and
the spec-ordered query agree. -/
theorem recent_submissions_eq_spec_of_all_published_witness :
    SubmissionModels.GetUsersRecentSubmissions [] [c4PublishedAssignment]
        [c4OlderSubmission] 7 1
      = SubmissionModels.specRecentSubmissions [] [c4PublishedAssignment]
          [c4OlderSubmission] 7 1 :=
  recent_submissions_eq_spec_of_all_published [] [c4PublishedAssignment]
    [c4OlderSubmission] 7 1 (by decide)
